import Mathlib

/-
  Verification development for the nanodesign_transition DNA-structure module
  (dna_structure.py).  The Python classes DnaStructure, DnaStructureHelix,
  DnaHelixConnection and DnaCrossover are shallowly embedded below; mutation of
  shared objects (a base's `domain` back-reference, a structure's `domain_list`,
  a helix's `domain_list`) is modelled by explicit state threading.  Machine
  arithmetic is exact (Python ints), so plain Int/Nat are used.

  Modelling conventions, noted once here:
  * Python raises on out-of-range list indexing; every such access is modelled
    by an Option so that a run that would raise returns `none`.  Python's
    negative-index wraparound (reachable only from malformed input, which the
    spec declares undefined) is not modelled: `getBase` returns `none` for
    non-positive ids.
  * Only the length of `helix_axis_nodes` is ever used by the embedded code, so
    a helix stores that length (`numAxisNodes`).
  * The floating-point `direction` vector of DnaHelixConnection and the
    end-frame geometry are not modelled (no claim depends on them).
  * The two strand-to-helix reference passes of compute_aux_data only populate
    per-strand helix lists that no embedded consumer reads; they are omitted.
-/

namespace Nanodesign

/-- np.sign on an exact integer. -/
def intSign (x : Int) : Int := if x < 0 then -1 else if 0 < x then 1 else 0

/-- Modelled from the spec: a DnaBase (produced by the design loader, outside
this repository): 1-based id, up/down strand links (-1 = absent), signed across
link (-1 = unpaired), helix id `h`, position-in-helix `p`, role flag, strand id.
The mutable `domain` back-reference is modelled as the assignment list threaded
through the computation (`domAssign`). -/
structure DnaBase where
  id : Int
  up : Int
  down : Int
  across : Int
  h : Int
  p : Nat
  isScaf : Bool
  strand : Int
  deriving DecidableEq

/-- Modelled from the spec: a DnaStrand as consumed by this module — only its
integer id and its color are read here (the color is carried opaquely as Int). -/
structure DnaStrand where
  id : Int
  color : Int
  deriving DecidableEq

/-- Scaffold polarity of a helix.  The source stores the string literal for
3-prime; `Polarity.three` models that string, `Polarity.five` any other value. -/
inductive Polarity
  | three
  | five
  deriving DecidableEq

/-- Modelled from the spec: nd.Domain (outside this repository) — sequential id,
owning helix (kept by lattice number), owning strand id and color, ordered base
list, and the connected strand/domain ids resolved in the post-pass. -/
structure Domain where
  id : Int
  helixNum : Int
  strandId : Int
  color : Int
  baseList : List DnaBase
  connectedStrand : Int
  connectedDomain : Int
  deriving DecidableEq

/-- State threaded through _compute_domains: the structure's domain_list being
built, the num_domains counter, and every base's `domain` back-reference
(an association list from base id to domain id; the head entry wins, which
models Python's in-place overwriting of the field). -/
structure DomState where
  domains : List Domain
  numDomains : Nat
  domAssign : List (Int × Int)
  deriving DecidableEq

/-- DnaStructureHelix.  `domainList` models helix.domain_list by the ids of the
appended Domain objects (the Python list shares the very objects held in the
structure's domain_list; only its length is relied upon by theorems below). -/
structure Helix where
  latticeNum : Int
  latticeRow : Int
  latticeCol : Int
  scaffoldPolarity : Polarity
  numAxisNodes : Nat
  stapleBaseList : List (Option DnaBase)
  scaffoldBaseList : List (Option DnaBase)
  domainList : List Int
  deriving DecidableEq

/-- DnaCrossover: the originating helix (kept by lattice number — the source's
back-reference to the owning connection is omitted, being cyclic), the base at
which the strand leaves the helix, and the owning strand (None if lookup failed). -/
structure DnaCrossover where
  helixNum : Int
  crossoverBase : DnaBase
  strand : Option DnaStrand
  deriving DecidableEq

/-- DnaHelixConnection: ordered pair of helices plus its crossover list.  The
geometric `direction` unit vector (floating point) is not modelled. -/
structure DnaHelixConnection where
  fromHelix : Helix
  toHelix : Helix
  crossovers : List DnaCrossover
  deriving DecidableEq

/-- The DnaStructure aggregate: base_connectivity, strands, structure_helices,
domain_list, every base's `domain` back-reference, and the connections produced
by connectivity/crossover computation (flat, each carries its from-helix). -/
structure StructState where
  baseConnectivity : List DnaBase
  strands : List DnaStrand
  helices : List Helix
  domainList : List Domain
  domAssign : List (Int × Int)
  connections : List DnaHelixConnection
  deriving DecidableEq

/-- base_connectivity[id-1]: resolve a 1-based base id.  Non-positive ids and
ids beyond the list return none (the source would wrap or raise; undefined
input per the spec's error model). -/
def getBase (bc : List DnaBase) (id : Int) : Option DnaBase :=
  if id ≤ 0 then none else bc[(id - 1).toNat]?

/-- DnaStructure._check_base_crossover: true if the base's down link is absent
or leaves the helix, or its up link is absent or leaves the helix.  An
unresolvable link id (source: raise) is totalized to true. -/
def checkBaseCrossover (bc : List DnaBase) (base : DnaBase) : Bool :=
  if base.down == -1 then true
  else
    match getBase bc base.down with
    | none => true
    | some downBase =>
      if downBase.h != base.h then true
      else if base.up == -1 then true
      else
        match getBase bc base.up with
        | none => true
        | some upBase => upBase.h != base.h

/-- The main loop of DnaStructure._set_strand_breaks over the positions after
the first non-empty one, carrying the current across sign. -/
def strandBreaksLoop (bc : List DnaBase) (baseList : List (Option DnaBase)) :
    List Nat → List Bool → Int → List Bool
  | [], breaks, _ => breaks
  | i :: rest, breaks, currSign =>
    match baseList.getD i none with
    | none => strandBreaksLoop bc baseList rest breaks currSign
    | some base =>
      if checkBaseCrossover bc base then
        strandBreaksLoop bc baseList rest (breaks.set i true) (intSign base.across)
      else if intSign base.across != currSign then
        strandBreaksLoop bc baseList rest ((breaks.set (i - 1) true).set i true)
          (intSign base.across)
      else
        strandBreaksLoop bc baseList rest breaks currSign

/-- DnaStructure._set_strand_breaks.  Locates the first non-empty position,
always marks it, then scans the remaining positions.  A base array with no base
makes the source raise; modelled as none.  (The loop is entered at start+1 ≥ 1,
so the `i - 1` of the sign test never truncates at zero.) -/
def setStrandBreaks (bc : List DnaBase) (strandBreaks : List Bool)
    (baseList : List (Option DnaBase)) : Option (List Bool) :=
  match baseList.findIdx? Option.isSome with
  | none => none
  | some startPos =>
    match baseList.getD startPos none with
    | none => none
    | some base =>
      some (strandBreaksLoop bc baseList
        (List.range' (startPos + 1) (baseList.length - (startPos + 1)))
        (strandBreaks.set startPos true) (intSign base.across))

/-- One step of the bucketing loop of DnaStructure._set_helix_bases: place a
base at index p of the staple or scaffold array of the helix it lives on. -/
def bucketStep (num : Int) (acc : List (Option DnaBase) × List (Option DnaBase))
    (b : DnaBase) : List (Option DnaBase) × List (Option DnaBase) :=
  if b.h == num then
    if b.isScaf then (acc.1, acc.2.set b.p (some b))
    else (acc.1.set b.p (some b), acc.2)
  else acc

/-- DnaStructure._set_helix_bases for one helix: build the two fixed-size
position-indexed arrays (capacity = length of helix_axis_nodes). -/
def setHelixBases (bc : List DnaBase) (helix : Helix) : Helix :=
  let hsize := helix.numAxisNodes
  let acc := bc.foldl (bucketStep helix.latticeNum)
    (List.replicate hsize none, List.replicate hsize none)
  { helix with stapleBaseList := acc.1, scaffoldBaseList := acc.2 }

/-- The non-empty bases of positions start..i (inclusive) of a helix base
array, in storage order — the span a closed domain collects. -/
def sliceBases (baseList : List (Option DnaBase)) (s e : Nat) : List DnaBase :=
  ((baseList.drop s).take (e + 1 - s)).filterMap id

/-- The base-list construction of the close step of _compute_domains: each base
is inserted at the front (reverse) or appended (otherwise). -/
def buildBaseList (reverse : Bool) (bs : List DnaBase) : List DnaBase :=
  bs.foldl (fun acc b => if reverse then b :: acc else acc ++ [b]) []

/-- Read a base's `domain` back-reference from the threaded assignment list;
-1 models the loader's initial unset value (per the spec's data model). -/
def lookupDomain (assign : List (Int × Int)) (baseId : Int) : Int :=
  match assign.find? (fun q => q.1 == baseId) with
  | some q => q.2
  | none => -1

/-- The strands_map dictionary built by get_strand: later strands overwrite
earlier ones with the same id (modelled by prepending, head entry wins). -/
def strandsMap (strands : List DnaStrand) : List (Int × DnaStrand) :=
  strands.foldl (fun m st => (st.id, st) :: m) []

/-- Dictionary lookup in a strands map. -/
def lookupStrand (m : List (Int × DnaStrand)) (id : Int) : Option DnaStrand :=
  (m.find? (fun q => q.1 == id)).map (fun q => q.2)

/-- DnaStructure.get_strand, stateless form: the cached map is a pure function
of the strand list, so internal callers use this directly. -/
def getStrand (strands : List DnaStrand) (id : Int) : Option DnaStrand :=
  lookupStrand (strandsMap strands) id

/-- DnaStructure.get_strand with its lazily-built strands_map cache: an empty
cache is populated from the strand list on first use; the (possibly new) cache
is returned alongside the result. -/
def getStrandCached (cache : List (Int × DnaStrand)) (strands : List DnaStrand)
    (id : Int) : Option DnaStrand × List (Int × DnaStrand) :=
  let m := if cache.isEmpty then strandsMap strands else cache
  (lookupStrand m id, m)

/-- The close step of the domain-assembly loop: build a Domain spanning
positions s..i, look up the strand of the closing base (the source reads
strand.color, so a failed lookup raises: none), append the domain, bump the
counter, and set every collected base's `domain` back-reference. -/
def closeDomain (strands : List DnaStrand) (helix : Helix) (reverse : Bool)
    (baseList : List (Option DnaBase)) (s i : Nat) (closingBase : DnaBase)
    (st : DomState) : Option DomState :=
  match getStrand strands closingBase.strand with
  | none => none
  | some strand =>
    let domId : Int := (st.numDomains : Int)
    let spanBs := sliceBases baseList s i
    let domain : Domain :=
      { id := domId, helixNum := helix.latticeNum, strandId := strand.id,
        color := strand.color, baseList := buildBaseList reverse spanBs,
        connectedStrand := -1, connectedDomain := -1 }
    some { domains := st.domains ++ [domain], numDomains := st.numDomains + 1,
           domAssign := spanBs.foldl (fun a b => (b.id, domId) :: a) st.domAssign }

/-- The domain-assembly loop of _compute_domains over the break positions of
one base array: a break at a position holding a base either opens the start
marker or closes a domain; positions failing `strand_breaks[i] and base` are
skipped. -/
def domainsLoop (strands : List DnaStrand) (breaks : List Bool)
    (baseList : List (Option DnaBase)) (helix : Helix) (reverse : Bool) :
    List Nat → Option Nat → DomState → Option DomState
  | [], _, st => some st
  | i :: rest, start, st =>
    match baseList.getD i none with
    | none => domainsLoop strands breaks baseList helix reverse rest start st
    | some base =>
      if breaks.getD i false then
        match start with
        | some s =>
          match closeDomain strands helix reverse baseList s i base st with
          | none => none
          | some st2 => domainsLoop strands breaks baseList helix reverse rest none st2
        | none => domainsLoop strands breaks baseList helix reverse rest (some i) st
      else domainsLoop strands breaks baseList helix reverse rest start st

/-- helix.scaffold_polarity equals the 3-prime literal. -/
def threeToFive (helix : Helix) : Bool := decide (helix.scaffoldPolarity = Polarity.three)

/-- The per-helix body of DnaStructure._compute_domains: a shared break array
(length = scaffold array length) accumulates staple then scaffold breaks; then
the staple pass (reverse = not three_to_five) and the scaffold pass (reverse =
three_to_five) assemble domains; the ids of the domains created here are
appended to helix.domain_list. -/
def computeDomainsHelix (bc : List DnaBase) (strands : List DnaStrand)
    (helix : Helix) (st : DomState) : Option (Helix × DomState) :=
  match setStrandBreaks bc (List.replicate helix.scaffoldBaseList.length false)
      helix.stapleBaseList with
  | none => none
  | some breaks1 =>
    match setStrandBreaks bc breaks1 helix.scaffoldBaseList with
    | none => none
    | some breaks2 =>
      match domainsLoop strands breaks2 helix.stapleBaseList helix
          (!threeToFive helix) (List.range breaks2.length) none st with
      | none => none
      | some st1 =>
        match domainsLoop strands breaks2 helix.scaffoldBaseList helix
            (threeToFive helix) (List.range breaks2.length) none st1 with
        | none => none
        | some st2 =>
          some ({ helix with domainList :=
                    helix.domainList ++ (st2.domains.drop st.domains.length).map Domain.id },
                st2)

/-- The helix loop of _compute_domains. -/
def domainsHelicesLoop (bc : List DnaBase) (strands : List DnaStrand) :
    List Helix → DomState → Option (List Helix × DomState)
  | [], st => some ([], st)
  | helix :: rest, st =>
    match computeDomainsHelix bc strands helix st with
    | none => none
    | some (helix2, st2) =>
      match domainsHelicesLoop bc strands rest st2 with
      | none => none
      | some (rest2, st3) => some (helix2 :: rest2, st3)

/-- The post-pass of _compute_domains for one domain: find the first base with
a present across value; if found, resolve the paired base and record its strand
id and its `domain` back-reference; otherwise leave both at -1. -/
def resolveDomain (bc : List DnaBase) (assign : List (Int × Int)) (d : Domain) :
    Option Domain :=
  let across : Int :=
    match d.baseList.find? (fun b => b.across != -1) with
    | some b => b.across
    | none => -1
  if across == -1 then some { d with connectedStrand := -1, connectedDomain := -1 }
  else
    match getBase bc across with
    | none => none
    | some acrossBase =>
      some { d with connectedStrand := acrossBase.strand,
                    connectedDomain := lookupDomain assign acrossBase.id }

/-- The post-pass of _compute_domains over the whole domain list. -/
def resolveDomains (bc : List DnaBase) (assign : List (Int × Int)) :
    List Domain → Option (List Domain)
  | [] => some []
  | d :: ds =>
    match resolveDomain bc assign d with
    | none => none
    | some d2 =>
      match resolveDomains bc assign ds with
      | none => none
      | some ds2 => some (d2 :: ds2)

/-- DnaStructure._compute_domains: reset num_domains and the structure's
domain_list (the base back-references and each helix's domain_list are NOT
reset), loop over the helices, then run the connected-strand/domain post-pass. -/
def computeDomainsS (s : StructState) : Option StructState :=
  let st0 : DomState := { domains := [], numDomains := 0, domAssign := s.domAssign }
  match domainsHelicesLoop s.baseConnectivity s.strands s.helices st0 with
  | none => none
  | some (helices2, st) =>
    match resolveDomains s.baseConnectivity st.domAssign st.domains with
    | none => none
    | some ds =>
      some { s with helices := helices2, domainList := ds, domAssign := st.domAssign }

/-- DnaStructure.get_domains: memoized via the emptiness check on domain_list. -/
def getDomains (s : StructState) : Option (List Domain × StructState) :=
  if s.domainList.isEmpty then
    match computeDomainsS s with
    | none => none
    | some s2 => some (s2.domainList, s2)
  else some (s.domainList, s)

/-- Manhattan distance of two helices on the integer lattice (the source's
abs(row1-row2) + abs(col1-col2) over Python ints, as a Nat). -/
def manhattan (h1 h2 : Helix) : Nat :=
  (h1.latticeRow - h2.latticeRow).natAbs + (h1.latticeCol - h2.latticeCol).natAbs

/-- DnaStructure._set_helix_connectivity for one helix: one connection per
helix at Manhattan distance exactly 1 (the geometric direction vector computed
by the source at construction is not modelled). -/
def helixConnections (helices : List Helix) (h1 : Helix) : List DnaHelixConnection :=
  (helices.filter (fun h2 => manhattan h1 h2 == 1)).map
    (fun h2 => { fromHelix := h1, toHelix := h2, crossovers := [] })

/-- The per-base body of DnaStructureHelix.compute_design_crossovers: the down
link is examined first, then the up link; each link that exists, leaves the
helix, and lands on the connection's to-helix contributes one crossover. -/
def baseCrossovers (bc : List DnaBase) (strands : List DnaStrand) (helix : Helix)
    (toNum : Int) (base : DnaBase) : List DnaCrossover :=
  let downList :=
    if base.down != -1 then
      match getBase bc base.down with
      | some downBase =>
        if downBase.h != base.h && downBase.h == toNum then
          [{ helixNum := helix.latticeNum, crossoverBase := base,
             strand := getStrand strands base.strand }]
        else []
      | none => []
    else []
  let upList :=
    if base.up != -1 then
      match getBase bc base.up with
      | some upBase =>
        if upBase.h != base.h && upBase.h == toNum then
          [{ helixNum := helix.latticeNum, crossoverBase := base,
             strand := getStrand strands base.strand }]
        else []
      | none => []
    else []
  downList ++ upList

/-- DnaStructureHelix.compute_design_crossovers for one connection: scan the
staple bases then the scaffold bases of the from-helix in position order. -/
def computeDesignCrossovers (bc : List DnaBase) (strands : List DnaStrand)
    (helix : Helix) (conn : DnaHelixConnection) : DnaHelixConnection :=
  let bases := (helix.stapleBaseList ++ helix.scaffoldBaseList).filterMap id
  { conn with crossovers :=
      conn.crossovers ++ (bases.map (baseCrossovers bc strands helix conn.toHelix.latticeNum)).flatten }

/-- DnaStructure.compute_aux_data: bucket bases into per-helix arrays, compute
domains (including the connected-domain post-pass), compute helix connectivity
from lattice coordinates, then the design crossovers of every connection. -/
def computeAuxData (s : StructState) : Option StructState :=
  let helices1 := s.helices.map (setHelixBases s.baseConnectivity)
  match computeDomainsS { s with helices := helices1 } with
  | none => none
  | some s2 =>
    let conns := (s2.helices.map (fun h1 =>
      (helixConnections s2.helices h1).map
        (computeDesignCrossovers s2.baseConnectivity s2.strands h1))).flatten
    some { s2 with connections := conns }

/-! Spec-side break detection, written from the words of the specification
(section 4.2) to be compared with the source-side `setStrandBreaks`. -/

/-- Spec wording: the base reached via this link lives on a different helix
than `h` (an unresolvable link is counted as leaving, matching the
totalization convention of the source-side embedding). -/
def specLinkLeavesHelix (bc : List DnaBase) (link : Int) (h : Int) : Bool :=
  match getBase bc link with
  | some b => b.h != h
  | none => true

/-- Spec wording of the crossover/end test: the down link is absent, or the
down base lives on a different helix, or the up link is absent, or the up base
lives on a different helix — a single four-way disjunction. -/
def specCrossoverEnd (bc : List DnaBase) (base : DnaBase) : Bool :=
  decide (base.down = -1) || specLinkLeavesHelix bc base.down base.h ||
    decide (base.up = -1) || specLinkLeavesHelix bc base.up base.h

/-- Mark each listed position as a break. -/
def markBreaks (breaks : List Bool) (ps : List Nat) : List Bool :=
  ps.foldl (fun bs j => bs.set j true) breaks

/-- Spec wording of the per-position scan: two tests in strict priority order;
the crossover/end test marks only the current position; only when it does not
fire is the pairing-sign test evaluated, and a sign flip relative to the sign
carried from the last break-marking base marks both the previous and the
current position; either firing test updates the carried sign. -/
def specBreaksLoop (bc : List DnaBase) (baseList : List (Option DnaBase)) :
    List Nat → List Bool → Int → List Bool
  | [], breaks, _ => breaks
  | i :: rest, breaks, carriedSign =>
    match baseList.getD i none with
    | none => specBreaksLoop bc baseList rest breaks carriedSign
    | some base =>
      if specCrossoverEnd bc base then
        specBreaksLoop bc baseList rest (markBreaks breaks [i]) (intSign base.across)
      else if intSign base.across != carriedSign then
        specBreaksLoop bc baseList rest (markBreaks breaks [i - 1, i]) (intSign base.across)
      else specBreaksLoop bc baseList rest breaks carriedSign

/-- Spec wording of break detection over one base array: mark the first
non-empty position, then scan every subsequent position. -/
def specSetStrandBreaks (bc : List DnaBase) (strandBreaks : List Bool)
    (baseList : List (Option DnaBase)) : Option (List Bool) :=
  match baseList.findIdx? Option.isSome with
  | none => none
  | some startPos =>
    match baseList.getD startPos none with
    | none => none
    | some base =>
      some (specBreaksLoop bc baseList
        (List.range' (startPos + 1) (baseList.length - (startPos + 1)))
        (markBreaks strandBreaks [startPos]) (intSign base.across))

/-! Correctness predicates used by the general theorems. -/

/-- No base occurs in the base lists of both domains. -/
def DomDisjoint (d1 d2 : Domain) : Prop :=
  ∀ b, b ∈ d1.baseList → b ∉ d2.baseList

/-- Every base held by the array sits at its own position index, lives on the
helix, and has the array's role — the invariant _set_helix_bases establishes. -/
def SlotProp (num : Int) (role : Bool) (arr : List (Option DnaBase)) : Prop :=
  ∀ k b, arr.getD k none = some b → b.p = k ∧ b.h = num ∧ b.isScaf = role

/-- The domain was assembled by the staple (scafPass = false) or scaffold
(scafPass = true) pass over the given helix: its base list is the non-empty
span s..e of that role's array, inserted in reverse exactly when the pass's
reverse flag (staple: not three_to_five; scaffold: three_to_five) holds. -/
def RoleDomain (helix : Helix) (scafPass : Bool) (d : Domain) : Prop :=
  ∃ sp ep, sp ≤ ep ∧
    d.baseList = buildBaseList (if scafPass then threeToFive helix else !threeToFive helix)
      (sliceBases (if scafPass then helix.scaffoldBaseList else helix.stapleBaseList) sp ep)

/-- The domains were closed left to right over windows of the base array lying
at or beyond position m, consecutive windows strictly ordered. -/
def DomsFrom (baseList : List (Option DnaBase)) (reverse : Bool) :
    Nat → List Domain → Prop
  | _, [] => True
  | m, d :: rest => ∃ sp ep, m ≤ sp ∧ sp ≤ ep ∧
      d.baseList = buildBaseList reverse (sliceBases baseList sp ep) ∧
      DomsFrom baseList reverse (ep + 1) rest

/-! Concrete structures used by the scenario claims and the witnesses. -/

/-- Build a base record. -/
def mkBase (id up down across h : Int) (p : Nat) (isScaf : Bool) (strand : Int) :
    DnaBase :=
  { id := id, up := up, down := down, across := across, h := h, p := p,
    isScaf := isScaf, strand := strand }

/-- One helix, bases at positions 0..9 in both roles, no crossovers, both
strands terminating at positions 0 and 9, across sign flipped (unpaired) at
positions 4 and 5: the boundary-correctness scenario.  Staple bases 1..10
(strand 1), scaffold bases 11..20 (strand 2). -/
def c2Bases : List DnaBase :=
  [mkBase 1 (-1) 2 11 0 0 false 1,
   mkBase 2 1 3 12 0 1 false 1,
   mkBase 3 2 4 13 0 2 false 1,
   mkBase 4 3 5 14 0 3 false 1,
   mkBase 5 4 6 (-1) 0 4 false 1,
   mkBase 6 5 7 (-1) 0 5 false 1,
   mkBase 7 6 8 17 0 6 false 1,
   mkBase 8 7 9 18 0 7 false 1,
   mkBase 9 8 10 19 0 8 false 1,
   mkBase 10 9 (-1) 20 0 9 false 1,
   mkBase 11 (-1) 12 1 0 0 true 2,
   mkBase 12 11 13 2 0 1 true 2,
   mkBase 13 12 14 3 0 2 true 2,
   mkBase 14 13 15 4 0 3 true 2,
   mkBase 15 14 16 (-1) 0 4 true 2,
   mkBase 16 15 17 (-1) 0 5 true 2,
   mkBase 17 16 18 7 0 6 true 2,
   mkBase 18 17 19 8 0 7 true 2,
   mkBase 19 18 20 9 0 8 true 2,
   mkBase 20 19 (-1) 10 0 9 true 2]

/-- The helix of the boundary-correctness scenario. -/
def c2Helix : Helix :=
  { latticeNum := 0, latticeRow := 0, latticeCol := 0,
    scaffoldPolarity := Polarity.three, numAxisNodes := 10,
    stapleBaseList := [], scaffoldBaseList := [], domainList := [] }

/-- The boundary-correctness structure. -/
def c2S : StructState :=
  { baseConnectivity := c2Bases, strands := [⟨1, 10⟩, ⟨2, 20⟩],
    helices := [c2Helix], domainList := [], domAssign := [], connections := [] }

/-- Two helices, 10 positions each, one one-directional staple crossover at
position 5 from helix 0 to helix 1 (base 6's down link lands on base 26; no
helix-1 base links back), no single-stranded regions.  Helix 0: staple 1..10,
scaffold 11..20; helix 1: staple 21..30, scaffold 31..40. -/
def c4Bases : List DnaBase :=
  [mkBase 1 (-1) 2 11 0 0 false 1,
   mkBase 2 1 3 12 0 1 false 1,
   mkBase 3 2 4 13 0 2 false 1,
   mkBase 4 3 5 14 0 3 false 1,
   mkBase 5 4 6 15 0 4 false 1,
   mkBase 6 5 26 16 0 5 false 1,
   mkBase 7 (-1) 8 17 0 6 false 2,
   mkBase 8 7 9 18 0 7 false 2,
   mkBase 9 8 10 19 0 8 false 2,
   mkBase 10 9 (-1) 20 0 9 false 2,
   mkBase 11 (-1) 12 1 0 0 true 4,
   mkBase 12 11 13 2 0 1 true 4,
   mkBase 13 12 14 3 0 2 true 4,
   mkBase 14 13 15 4 0 3 true 4,
   mkBase 15 14 16 5 0 4 true 4,
   mkBase 16 15 17 6 0 5 true 4,
   mkBase 17 16 18 7 0 6 true 4,
   mkBase 18 17 19 8 0 7 true 4,
   mkBase 19 18 20 9 0 8 true 4,
   mkBase 20 19 (-1) 10 0 9 true 4,
   mkBase 21 22 (-1) 31 1 0 false 1,
   mkBase 22 23 21 32 1 1 false 1,
   mkBase 23 24 22 33 1 2 false 1,
   mkBase 24 25 23 34 1 3 false 1,
   mkBase 25 26 24 35 1 4 false 1,
   mkBase 26 (-1) 25 36 1 5 false 1,
   mkBase 27 (-1) 28 37 1 6 false 3,
   mkBase 28 27 29 38 1 7 false 3,
   mkBase 29 28 30 39 1 8 false 3,
   mkBase 30 29 (-1) 40 1 9 false 3,
   mkBase 31 (-1) 32 21 1 0 true 5,
   mkBase 32 31 33 22 1 1 true 5,
   mkBase 33 32 34 23 1 2 true 5,
   mkBase 34 33 35 24 1 3 true 5,
   mkBase 35 34 36 25 1 4 true 5,
   mkBase 36 35 37 26 1 5 true 5,
   mkBase 37 36 38 27 1 6 true 5,
   mkBase 38 37 39 28 1 7 true 5,
   mkBase 39 38 40 29 1 8 true 5,
   mkBase 40 39 (-1) 30 1 9 true 5]

/-- Helix 0 of the two-helix scenario (lattice (0,0)). -/
def c4Helix0 : Helix :=
  { latticeNum := 0, latticeRow := 0, latticeCol := 0,
    scaffoldPolarity := Polarity.three, numAxisNodes := 10,
    stapleBaseList := [], scaffoldBaseList := [], domainList := [] }

/-- Helix 1 of the two-helix scenario (lattice (0,1), adjacent to helix 0). -/
def c4Helix1 : Helix :=
  { latticeNum := 1, latticeRow := 0, latticeCol := 1,
    scaffoldPolarity := Polarity.three, numAxisNodes := 10,
    stapleBaseList := [], scaffoldBaseList := [], domainList := [] }

/-- The two-helix end-to-end scenario structure. -/
def c4S : StructState :=
  { baseConnectivity := c4Bases,
    strands := [⟨1, 11⟩, ⟨2, 12⟩, ⟨3, 13⟩, ⟨4, 14⟩, ⟨5, 15⟩],
    helices := [c4Helix0, c4Helix1], domainList := [], domAssign := [],
    connections := [] }

/-- A helix holding exactly one staple base and one scaffold base, both at
position 0 (unpaired, one-base strands): compute_aux_data succeeds yet closes
no domain, leaving both bases without a domain back-reference. -/
def c1CexBases : List DnaBase :=
  [mkBase 1 (-1) (-1) (-1) 0 0 false 1,
   mkBase 2 (-1) (-1) (-1) 0 0 true 2]

/-- The helix of the coverage counterexample. -/
def c1CexHelix : Helix :=
  { latticeNum := 0, latticeRow := 0, latticeCol := 0,
    scaffoldPolarity := Polarity.three, numAxisNodes := 1,
    stapleBaseList := [], scaffoldBaseList := [], domainList := [] }

/-- The coverage counterexample structure. -/
def c1CexS : StructState :=
  { baseConnectivity := c1CexBases, strands := [⟨1, 0⟩, ⟨2, 0⟩],
    helices := [c1CexHelix], domainList := [], domAssign := [], connections := [] }

/-- A minimal one-helix structure producing two domains (one per role), used to
re-invoke domain computation: staple bases 1,2 (strand 1), scaffold bases 3,4
(strand 2), paired everywhere. -/
def c9Bases : List DnaBase :=
  [mkBase 1 (-1) 2 3 0 0 false 1,
   mkBase 2 1 (-1) 4 0 1 false 1,
   mkBase 3 (-1) 4 1 0 0 true 2,
   mkBase 4 3 (-1) 2 0 1 true 2]

/-- The helix of the re-invocation scenario. -/
def c9Helix : Helix :=
  { latticeNum := 0, latticeRow := 0, latticeCol := 0,
    scaffoldPolarity := Polarity.three, numAxisNodes := 2,
    stapleBaseList := [], scaffoldBaseList := [], domainList := [] }

/-- The re-invocation scenario structure. -/
def c9S : StructState :=
  { baseConnectivity := c9Bases, strands := [⟨1, 0⟩, ⟨2, 0⟩],
    helices := [c9Helix], domainList := [], domAssign := [], connections := [] }

/-- An in-helix base serving as the link target of `c10FlipBase`. -/
def c10PrevBase : DnaBase := mkBase 1 (-1) 2 9 0 0 false 1

/-- A base at position 2 whose across sign (-1) differs from a carried sign of
1, and whose up/down links stay on its helix (so the crossover test does not
fire): the sign test fires at position 2 while slot 1 of the array is empty. -/
def c10FlipBase : DnaBase := mkBase 2 1 1 (-1) 0 2 false 1

/-- Base connectivity of the break-at-empty-slot scenario. -/
def c10Bc : List DnaBase := [c10PrevBase, c10FlipBase]

/-- The scanned base array: slot 1 is empty, yet the sign flip at position 2
marks position 1 as a break. -/
def c10BaseList : List (Option DnaBase) := [some c10PrevBase, none, some c10FlipBase]

/-- A break array marking every position, for the assembly-skip scenario. -/
def c10Breaks : List Bool := [true, true, true]

/-- A throwaway helix record for direct calls of the assembly loop. -/
def c10Helix : Helix :=
  { latticeNum := 0, latticeRow := 0, latticeCol := 0,
    scaffoldPolarity := Polarity.three, numAxisNodes := 3,
    stapleBaseList := [], scaffoldBaseList := [], domainList := [] }

/-- An empty assembly state for direct calls of the assembly loop. -/
def c10St : DomState := { domains := [], numDomains := 0, domAssign := [] }

/-- Helix at lattice (0,0) with no bases, for the adjacency witness. -/
def c5HelixA : Helix :=
  { latticeNum := 0, latticeRow := 0, latticeCol := 0,
    scaffoldPolarity := Polarity.three, numAxisNodes := 0,
    stapleBaseList := [], scaffoldBaseList := [], domainList := [] }

/-- Helix at lattice (0,1), adjacent to `c5HelixA`. -/
def c5HelixB : Helix :=
  { latticeNum := 1, latticeRow := 0, latticeCol := 1,
    scaffoldPolarity := Polarity.three, numAxisNodes := 0,
    stapleBaseList := [], scaffoldBaseList := [], domainList := [] }

/-- Strand list with ids 1 and 2, for the lookup-failure witness. -/
def c6Strands : List DnaStrand := [⟨1, 7⟩, ⟨2, 8⟩]

/-! Theorems. -/

/-- Membership in a helix's connectivity list, characterized. -/
theorem mem_helixConnections {helices : List Helix} {h1 : Helix}
    {c : DnaHelixConnection} :
    c ∈ helixConnections helices h1 ↔
      ∃ h2, h2 ∈ helices ∧ manhattan h1 h2 = 1 ∧
        c = { fromHelix := h1, toHelix := h2, crossovers := [] } := by
  unfold helixConnections
  constructor
  · intro hc
    obtain ⟨h2, hmemfil, hfc⟩ := List.mem_map.mp hc
    obtain ⟨hmem, hdist⟩ := List.mem_filter.mp hmemfil
    exact ⟨h2, hmem, by simpa using hdist, hfc.symm⟩
  · rintro ⟨h2, hmem, hdist, rfl⟩
    exact List.mem_map.mpr ⟨h2, List.mem_filter.mpr ⟨hmem, by simpa using hdist⟩, rfl⟩

/-- Every connection in a helix's connectivity list originates at that helix. -/
theorem fromHelix_of_mem_helixConnections {helices : List Helix} {h1 : Helix}
    {c : DnaHelixConnection} (hc : c ∈ helixConnections helices h1) :
    c.fromHelix = h1 := by
  obtain ⟨h2, _, _, rfl⟩ := mem_helixConnections.mp hc
  rfl

/-- A connection from hA to hB exists iff hB is a structure helix at Manhattan
distance 1 from hA. -/
theorem conn_exists_iff {helices : List Helix} {hA hB : Helix} :
    (∃ c ∈ helixConnections helices hA, c.toHelix = hB) ↔
      hB ∈ helices ∧ manhattan hA hB = 1 := by
  constructor
  · rintro ⟨c, hc, hto⟩
    obtain ⟨h2, hmem, hdist, rfl⟩ := mem_helixConnections.mp hc
    simp only at hto
    subst hto
    exact ⟨hmem, hdist⟩
  · rintro ⟨hmem, hdist⟩
    exact ⟨{ fromHelix := hA, toHelix := hB, crossovers := [] },
      mem_helixConnections.mpr ⟨hB, hmem, hdist, rfl⟩, rfl⟩

/-- Manhattan distance on the lattice is symmetric. -/
theorem manhattan_comm (h1 h2 : Helix) : manhattan h1 h2 = manhattan h2 h1 := by
  unfold manhattan
  rw [← Int.natAbs_neg (h1.latticeRow - h2.latticeRow), neg_sub,
      ← Int.natAbs_neg (h1.latticeCol - h2.latticeCol), neg_sub]

/-- A helix is at Manhattan distance 0 from itself. -/
theorem manhattan_self (h1 : Helix) : manhattan h1 h1 = 0 := by
  unfold manhattan
  simp

/-- Claim C5: after helix connectivity is computed, for every ordered pair of
distinct structure helices a connection from h1 to h2 exists in h1's
connectivity list iff their lattice coordinates are at Manhattan distance
exactly 1; the relation is symmetric, and no helix is connected to itself. -/
theorem adjacency_c5 (helices : List Helix) (h1 h2 : Helix)
    (hm1 : h1 ∈ helices) (hm2 : h2 ∈ helices) (_hne : h1 ≠ h2) :
    ((∃ c ∈ helixConnections helices h1, c.fromHelix = h1 ∧ c.toHelix = h2) ↔
      manhattan h1 h2 = 1) ∧
    ((∃ c ∈ helixConnections helices h1, c.toHelix = h2) ↔
      ∃ c ∈ helixConnections helices h2, c.toHelix = h1) ∧
    ¬ ∃ c ∈ helixConnections helices h1, c.toHelix = h1 := by
  refine ⟨⟨fun hex => ?_, fun hdist => ?_⟩, ⟨fun hex => ?_, fun hex => ?_⟩, fun hex => ?_⟩
  · obtain ⟨c, hc, _, hto⟩ := hex
    exact (conn_exists_iff.mp ⟨c, hc, hto⟩).2
  · obtain ⟨c, hc, hto⟩ := conn_exists_iff.mpr ⟨hm2, hdist⟩
    exact ⟨c, hc, fromHelix_of_mem_helixConnections hc, hto⟩
  · obtain ⟨hmem, hdist⟩ := conn_exists_iff.mp hex
    exact conn_exists_iff.mpr ⟨hm1, (manhattan_comm h2 h1).trans hdist⟩
  · obtain ⟨hmem, hdist⟩ := conn_exists_iff.mp hex
    exact conn_exists_iff.mpr ⟨hm2, (manhattan_comm h1 h2).trans hdist⟩
  · obtain ⟨_, hdist⟩ := conn_exists_iff.mp hex
    rw [manhattan_self] at hdist
    exact absurd hdist (by decide)

/-- Witness for C5: the two adjacent concrete helices at lattice (0,0) and
(0,1) instantiate the adjacency characterization. -/
theorem adjacency_c5_witness :
    ((∃ c ∈ helixConnections [c5HelixA, c5HelixB] c5HelixA,
        c.fromHelix = c5HelixA ∧ c.toHelix = c5HelixB) ↔
      manhattan c5HelixA c5HelixB = 1) ∧
    ((∃ c ∈ helixConnections [c5HelixA, c5HelixB] c5HelixA, c.toHelix = c5HelixB) ↔
      ∃ c ∈ helixConnections [c5HelixA, c5HelixB] c5HelixB, c.toHelix = c5HelixA) ∧
    ¬ ∃ c ∈ helixConnections [c5HelixA, c5HelixB] c5HelixA, c.toHelix = c5HelixA :=
  adjacency_c5 [c5HelixA, c5HelixB] c5HelixA c5HelixB (by decide) (by decide) (by decide)

/-- The strands_map dictionary is the reversed association list of the strand
list keyed by id (so a lookup finds the last strand with a given id, as a
Python dict built by insertion does). -/
theorem strandsMap_eq (strands : List DnaStrand) :
    strandsMap strands = (strands.map (fun st => (st.id, st))).reverse := by
  suffices haux : ∀ (l : List DnaStrand) (acc : List (Int × DnaStrand)),
      l.foldl (fun m st => (st.id, st) :: m) acc =
        (l.map (fun st => (st.id, st))).reverse ++ acc by
    simpa using haux strands []
  intro l
  induction l with
  | nil => intro acc; simp
  | cons a l ih =>
    intro acc
    simp only [List.foldl_cons, List.map_cons, List.reverse_cons, ih]
    simp

/-- Claim C6: on a structure with a non-empty strand list, get_strand returns
the not-found sentinel (none, never a raise: the embedding is total) for every
id absent from the strand ids, returns a strand carrying the requested id for
every id present, and builds the id-to-strand index from the strand list on
first use (empty cache). -/
theorem get_strand_c6 (strands : List DnaStrand) (cache : List (Int × DnaStrand))
    (id : Int) (_hne : strands ≠ []) (hcache : cache = []) :
    (getStrandCached cache strands id).2 = strandsMap strands ∧
    (id ∉ strands.map DnaStrand.id → (getStrandCached cache strands id).1 = none) ∧
    (id ∈ strands.map DnaStrand.id →
      ∃ st, (getStrandCached cache strands id).1 = some st ∧ st.id = id) := by
  subst hcache
  have hres : getStrandCached [] strands id =
      (lookupStrand (strandsMap strands) id, strandsMap strands) := rfl
  refine ⟨by rw [hres], fun hnot => ?_, fun hmem => ?_⟩
  · rw [hres]
    unfold lookupStrand
    cases hfind : (strandsMap strands).find? (fun q => q.1 == id) with
    | none => rfl
    | some q =>
      exfalso
      have hq : q ∈ strandsMap strands := List.mem_of_find?_eq_some hfind
      rw [strandsMap_eq, List.mem_reverse, List.mem_map] at hq
      obtain ⟨st, hst, hqe⟩ := hq
      have hbeq := List.find?_some hfind
      have : id ∈ strands.map DnaStrand.id := by
        refine List.mem_map.mpr ⟨st, hst, ?_⟩
        have : st.id = q.1 := by rw [← hqe]
        rw [this]
        exact eq_of_beq hbeq
      exact hnot this
  · rw [hres]
    obtain ⟨st, hst, hid⟩ := List.mem_map.mp hmem
    have hsome : ((strandsMap strands).find? (fun q => q.1 == id)).isSome := by
      refine List.find?_isSome.mpr ⟨(st.id, st), ?_, by simpa using hid⟩
      rw [strandsMap_eq, List.mem_reverse, List.mem_map]
      exact ⟨st, hst, rfl⟩
    obtain ⟨q, hfind⟩ := Option.isSome_iff_exists.mp hsome
    have hq : q ∈ strandsMap strands := List.mem_of_find?_eq_some hfind
    rw [strandsMap_eq, List.mem_reverse, List.mem_map] at hq
    obtain ⟨st2, _, hqe⟩ := hq
    have hbeq := List.find?_some hfind
    refine ⟨q.2, ?_, ?_⟩
    · unfold lookupStrand
      rw [hfind]
      rfl
    · have h21 : q.2.id = q.1 := by rw [← hqe]
      rw [h21]
      exact eq_of_beq hbeq

/-- Witness for C6: on the concrete strand list with ids 1 and 2, the absent id
9999 yields none and the present id 1 yields the strand with id 1. -/
theorem get_strand_c6_witness :
    (getStrandCached [] c6Strands 9999).1 = none ∧
    (∃ st, (getStrandCached [] c6Strands 1).1 = some st ∧ st.id = 1) :=
  ⟨(get_strand_c6 c6Strands [] 9999 (by decide) rfl).2.1 (by decide),
   (get_strand_c6 c6Strands [] 1 (by decide) rfl).2.2 (by decide)⟩

/-- Claim C2: on the synthetic single helix with bases at positions 0..9, no
crossovers, and an unpaired run at positions 4..5, compute_aux_data produces
exactly 3 domains per strand role, spanning positions 0-3, 4-5 and 6-9 (the
staple pass comes first in storage order; the scaffold pass of this 3-prime
helix lists its bases in reversed storage order). -/
theorem boundary_correctness_c2 :
    (computeAuxData c2S).map (fun s => s.domainList.map
        (fun d => (d.baseList.map DnaBase.p, d.baseList.all DnaBase.isScaf))) =
      some [([0, 1, 2, 3], false), ([4, 5], false), ([6, 7, 8, 9], false),
            ([3, 2, 1, 0], true), ([5, 4], true), ([9, 8, 7, 6], true)] := by
  rfl

/-- Claim C4: on the two-helix scenario with one staple crossover at position 5
from helix 0 to helix 1 and no single-stranded regions, compute_aux_data yields
2 domains per helix per strand role, split at position 5 — per helix and role
the spans are positions 0-5 and 6-9 (scaffold domains of these 3-prime helices
listed in reversed storage order) — with exactly 1 crossover on the helix-0-to-
helix-1 connection, sitting at position 5, and 0 crossovers on the
helix-1-to-helix-0 connection. -/
theorem end_to_end_c4 :
    ((computeAuxData c4S).map (fun s =>
      (s.domainList.countP (fun d => d.helixNum == 0 && d.baseList.all (fun b => !b.isScaf)),
       s.domainList.countP (fun d => d.helixNum == 0 && d.baseList.all DnaBase.isScaf),
       s.domainList.countP (fun d => d.helixNum == 1 && d.baseList.all (fun b => !b.isScaf)),
       s.domainList.countP (fun d => d.helixNum == 1 && d.baseList.all DnaBase.isScaf),
       s.connections.map (fun c =>
         (c.fromHelix.latticeNum, c.toHelix.latticeNum, c.crossovers.length)))) =
      some (2, 2, 2, 2, [(0, 1, 1), (1, 0, 0)])) ∧
    ((computeAuxData c4S).map (fun s =>
      (s.domainList.map (fun d =>
         (d.helixNum, d.baseList.map DnaBase.p, d.baseList.all DnaBase.isScaf)),
       s.connections.map (fun c =>
         (c.fromHelix.latticeNum, c.toHelix.latticeNum,
          c.crossovers.map (fun x => x.crossoverBase.p))))) =
      some ([(0, [0, 1, 2, 3, 4, 5], false), (0, [6, 7, 8, 9], false),
             (0, [5, 4, 3, 2, 1, 0], true), (0, [9, 8, 7, 6], true),
             (1, [0, 1, 2, 3, 4, 5], false), (1, [6, 7, 8, 9], false),
             (1, [5, 4, 3, 2, 1, 0], true), (1, [9, 8, 7, 6], true)],
            [(0, 1, [5]), (1, 0, [])])) := by
  exact ⟨rfl, rfl⟩

/-- Claim C1, counterexample: on a validated structure whose helix holds one
staple base and one scaffold base (both at position 0), compute_aux_data
succeeds, the staple array holds a base at position 0, yet zero domains are
created and both bases' domain back-references remain unset (-1) — so not
every base position holding a base belongs to exactly one domain. -/
theorem coverage_c1_counterexample :
    (computeAuxData c1CexS).map (fun s =>
      (s.helices.map (fun h => h.stapleBaseList.map Option.isSome),
       s.domainList.length, lookupDomain s.domAssign 1, lookupDomain s.domAssign 2)) =
      some ([[true]], 0, -1, -1) := by
  rfl

/-- Claim C9, counterexample: re-invoking _compute_domains on an already
computed structure does NOT append the second run's domains alongside the
first run's in the structure's domain_list — line 145 resets that list, so its
length stays 2 after the second run instead of doubling to 4. -/
theorem reinvoke_c9_counterexample :
    ((computeAuxData c9S).map (fun s1 => s1.domainList.length) = some 2) ∧
    (((computeAuxData c9S).bind computeDomainsS).map
        (fun s2 => s2.domainList.length) = some 2) := by
  exact ⟨rfl, rfl⟩

/-- Claim C9, amended: a second invocation of _compute_domains resets and
rebuilds the structure-level domain_list (2 domains before and after), but
each helix's domain_list is never cleared, so the second run's domains are
appended alongside the first run's there (4 entries after two runs); and
get_domains recomputes only when the structure's domain_list is empty,
returning the memoized list untouched otherwise. -/
theorem reinvoke_c9_amended :
    (((computeAuxData c9S).bind computeDomainsS).map
        (fun s2 => (s2.domainList.length, s2.helices.map (fun h => h.domainList))) =
      some (2, [[0, 1, 0, 1]])) ∧
    ((computeAuxData c9S).bind getDomains =
      (computeAuxData c9S).map (fun s1 => (s1.domainList, s1))) := by
  exact ⟨rfl, rfl⟩

/-- Setting any position to true preserves an existing true at position j. -/
theorem getElem?_set_true {l : List Bool} {j k : Nat} (h : l[j]? = some true) :
    (l.set k true)[j]? = some true := by
  rw [List.getElem?_set]
  by_cases hkj : k = j
  · subst hkj
    obtain ⟨hlt, _⟩ := List.getElem?_eq_some.mp h
    simp [hlt]
  · simpa [hkj] using h

/-- The break-detection loop never clears a break: a position already marked
stays marked through any remaining steps. -/
theorem strandBreaksLoop_mono (bc : List DnaBase) (baseList : List (Option DnaBase)) :
    ∀ (js : List Nat) (breaks : List Bool) (currSign : Int) (j : Nat),
      breaks[j]? = some true →
      (strandBreaksLoop bc baseList js breaks currSign)[j]? = some true := by
  intro js
  induction js with
  | nil => intro breaks currSign j h; exact h
  | cons i rest ih =>
    intro breaks currSign j h
    cases hs : baseList.getD i none with
    | none =>
      simp only [strandBreaksLoop, hs]
      exact ih breaks currSign j h
    | some base =>
      simp only [strandBreaksLoop, hs]
      by_cases hcx : checkBaseCrossover bc base
      · simp only [hcx, if_true]
        exact ih _ _ j (getElem?_set_true h)
      · simp only [hcx, if_false, Bool.false_eq_true]
        by_cases hsg : (intSign base.across != currSign) = true
        · simp only [hsg, if_true]
          exact ih _ _ j (getElem?_set_true (getElem?_set_true h))
        · simp only [hsg, if_false, Bool.false_eq_true]
          exact ih _ _ j h

/-- Claim C10: (a) in break detection, when a non-empty position i passes the
crossover test negatively and its across sign differs from the carried sign,
the final break array holds true at position i-1 — with no assumption that
slot i-1 of the scanned array is non-empty; (b) in domain assembly, a position
whose slot in the scanned base array is empty is skipped entirely — the step
neither opens nor closes a domain, whatever the break array says there, so
breaks contributed by the other strand role at positions empty in this role's
array never affect this role's domains. -/
theorem break_at_empty_slot_c10 :
    (∀ (bc : List DnaBase) (baseList : List (Option DnaBase)) (breaks : List Bool)
        (currSign : Int) (i : Nat) (rest : List Nat) (b : DnaBase),
      baseList.getD i none = some b →
      checkBaseCrossover bc b = false →
      intSign b.across ≠ currSign →
      i - 1 < breaks.length →
      (strandBreaksLoop bc baseList (i :: rest) breaks currSign)[i - 1]? = some true) ∧
    (∀ (strands : List DnaStrand) (breaks : List Bool)
        (baseList : List (Option DnaBase)) (helix : Helix) (reverse : Bool)
        (i : Nat) (rest : List Nat) (start : Option Nat) (st : DomState),
      baseList.getD i none = none →
      domainsLoop strands breaks baseList helix reverse (i :: rest) start st =
        domainsLoop strands breaks baseList helix reverse rest start st) := by
  constructor
  · intro bc baseList breaks currSign i rest b hs hcx hsg hlen
    simp only [strandBreaksLoop, hs, hcx, if_false, Bool.false_eq_true,
      bne_iff_ne, ne_eq, hsg, not_false_eq_true, if_true]
    apply strandBreaksLoop_mono
    apply getElem?_set_true
    rw [List.getElem?_set]
    simp [hlen]
  · intro strands breaks baseList helix reverse i rest start st hs
    simp only [domainsLoop, hs]

/-- Witness for C10: on the concrete array whose slot 1 is empty, the sign flip
at position 2 marks position 1 in the final break array; and the assembly loop
run over position 1 (break set, slot empty, a span already open) is the same as
skipping that position. -/
theorem break_at_empty_slot_c10_witness :
    ((strandBreaksLoop c10Bc c10BaseList [2] [false, false, false] 1)[1]? = some true) ∧
    (domainsLoop [] c10Breaks c10BaseList c10Helix false [1, 2] (some 0) c10St =
      domainsLoop [] c10Breaks c10BaseList c10Helix false [2] (some 0) c10St) :=
  ⟨break_at_empty_slot_c10.1 c10Bc c10BaseList [false, false, false] 1 2 [] c10FlipBase
      rfl rfl (by decide) (by decide),
   break_at_empty_slot_c10.2 [] c10Breaks c10BaseList c10Helix false 1 [2] (some 0) c10St rfl⟩

/-- The source's early-return crossover/end test agrees with the spec's
four-way disjunction at every base. -/
theorem checkBaseCrossover_eq_spec (bc : List DnaBase) (b : DnaBase) :
    checkBaseCrossover bc b = specCrossoverEnd bc b := by
  unfold checkBaseCrossover specCrossoverEnd specLinkLeavesHelix
  by_cases hd : b.down = -1
  · simp [hd]
  · cases hg : getBase bc b.down with
    | none => simp [hd, hg]
    | some db =>
      by_cases hdb : db.h = b.h
      · by_cases hu : b.up = -1
        · simp [hd, hg, hdb, hu]
        · cases hgu : getBase bc b.up with
          | none => simp [hd, hg, hdb, hu, hgu]
          | some ub => simp [hd, hg, hdb, hu, hgu]
      · simp [hd, hg, hdb]

/-- The source-side break-detection loop agrees with the spec-side loop on
every index list, break array, and carried sign. -/
theorem strandBreaksLoop_eq_spec (bc : List DnaBase) (baseList : List (Option DnaBase)) :
    ∀ (js : List Nat) (breaks : List Bool) (currSign : Int),
      strandBreaksLoop bc baseList js breaks currSign =
        specBreaksLoop bc baseList js breaks currSign := by
  intro js
  induction js with
  | nil => intro breaks currSign; rfl
  | cons i rest ih =>
    intro breaks currSign
    cases hs : baseList.getD i none with
    | none =>
      simp only [strandBreaksLoop, specBreaksLoop, hs]
      exact ih _ _
    | some base =>
      simp only [strandBreaksLoop, specBreaksLoop, hs, checkBaseCrossover_eq_spec,
        markBreaks, List.foldl_cons, List.foldl_nil]
      split
      · exact ih _ _
      · split
        · exact ih _ _
        · exact ih _ _

/-- Claim C3: break detection as implemented equals the spec's description —
for every non-empty position after the first, the crossover/end test (down
absent, down on another helix, up absent, or up on another helix) is evaluated
first and, firing, marks only the current position; only otherwise is the
pairing-sign test evaluated, and a flip of the across sign relative to the
sign carried from the last break-marking base marks both the previous and the
current position. -/
theorem break_priority_c3 (bc : List DnaBase) (strandBreaks : List Bool)
    (baseList : List (Option DnaBase)) :
    setStrandBreaks bc strandBreaks baseList =
      specSetStrandBreaks bc strandBreaks baseList := by
  unfold setStrandBreaks specSetStrandBreaks
  cases baseList.findIdx? Option.isSome <;>
    simp only [markBreaks, List.foldl_cons, List.foldl_nil, strandBreaksLoop_eq_spec]

/-- Reading a slot with default none yields a base iff the slot holds it. -/
theorem getD_slot_iff {l : List (Option DnaBase)} {k : Nat} {b : DnaBase} :
    l.getD k none = some b ↔ l[k]? = some (some b) := by
  rw [List.getD_eq_getElem?_getD]
  cases h : l[k]? with
  | none => simp
  | some o => simp

/-- The insert-at-front/append loop of the close step reverses the collected
span exactly when the reverse flag holds. -/
theorem buildBaseList_eq (reverse : Bool) (bs : List DnaBase) :
    buildBaseList reverse bs = if reverse then bs.reverse else bs := by
  suffices haux : ∀ (l acc : List DnaBase),
      l.foldl (fun acc b => if reverse then b :: acc else acc ++ [b]) acc =
        if reverse then l.reverse ++ acc else acc ++ l by
    unfold buildBaseList
    rw [haux bs []]
    cases reverse <;> simp
  intro l
  induction l with
  | nil => intro acc; cases reverse <;> simp
  | cons a l ih =>
    intro acc
    cases reverse <;> simp_all

/-- Membership in a built base list is membership in the collected span. -/
theorem mem_buildBaseList {reverse : Bool} {bs : List DnaBase} {b : DnaBase} :
    b ∈ buildBaseList reverse bs ↔ b ∈ bs := by
  rw [buildBaseList_eq]
  cases reverse <;> simp

/-- Every base of a span slice occupies a slot of the array inside the span. -/
theorem mem_sliceBases {baseList : List (Option DnaBase)} {s e : Nat} {b : DnaBase}
    (h : b ∈ sliceBases baseList s e) :
    ∃ k, s ≤ k ∧ k ≤ e ∧ baseList.getD k none = some b := by
  unfold sliceBases at h
  rw [List.mem_filterMap] at h
  obtain ⟨o, ho, hob⟩ := h
  have hosb : o = some b := hob
  subst hosb
  obtain ⟨i, hio⟩ := List.mem_iff_getElem?.mp ho
  have hilt : i < e + 1 - s := by
    by_contra hge
    rw [List.getElem?_take_eq_none (Nat.le_of_not_lt hge)] at hio
    exact Option.noConfusion hio
  rw [List.getElem?_take_of_lt hilt, List.getElem?_drop] at hio
  refine ⟨s + i, Nat.le_add_right s i, by omega, getD_slot_iff.mpr hio⟩

/-- What the close step of domain assembly produces. -/
theorem closeDomain_spec {strands : List DnaStrand} {helix : Helix} {reverse : Bool}
    {baseList : List (Option DnaBase)} {s i : Nat} {closingBase : DnaBase}
    {st st2 : DomState}
    (h : closeDomain strands helix reverse baseList s i closingBase st = some st2) :
    ∃ d : Domain, st2.domains = st.domains ++ [d] ∧
      d.baseList = buildBaseList reverse (sliceBases baseList s i) ∧
      d.helixNum = helix.latticeNum := by
  unfold closeDomain at h
  cases hgs : getStrand strands closingBase.strand with
  | none => rw [hgs] at h; exact Option.noConfusion h
  | some strand =>
    rw [hgs] at h
    have h2 := Option.some.inj h
    subst h2
    exact ⟨_, rfl, rfl, rfl⟩

/-- The domain-assembly loop closes a left-to-right chain of span windows: on a
strictly increasing index list whose members (and any open start marker) lie at
or beyond m, the domains it appends satisfy DomsFrom m. -/
theorem domainsLoop_spec (strands : List DnaStrand) (breaks : List Bool)
    (baseList : List (Option DnaBase)) (helix : Helix) (reverse : Bool) :
    ∀ (js : List Nat) (start : Option Nat) (st st2 : DomState) (m : Nat),
      domainsLoop strands breaks baseList helix reverse js start st = some st2 →
      js.Pairwise (· < ·) →
      (∀ j, j ∈ js → m ≤ j) →
      (∀ sv, start = some sv → m ≤ sv ∧ ∀ j, j ∈ js → sv < j) →
      ∃ L, st2.domains = st.domains ++ L ∧ DomsFrom baseList reverse m L := by
  intro js
  induction js with
  | nil =>
    intro start st st2 m h _ _ _
    refine ⟨[], ?_, trivial⟩
    have h2 := Option.some.inj h
    rw [← h2, List.append_nil]
  | cons i rest ih =>
    intro start st st2 m h hpw hm hstart
    have hpw2 : rest.Pairwise (· < ·) := (List.pairwise_cons.mp hpw).2
    have hlt : ∀ j, j ∈ rest → i < j := (List.pairwise_cons.mp hpw).1
    cases hs : baseList.getD i none with
    | none =>
      simp only [domainsLoop, hs] at h
      exact ih start st st2 m h hpw2 (fun j hj => hm j (List.mem_cons_of_mem i hj))
        (fun sv hsv => ⟨(hstart sv hsv).1, fun j hj => (hstart sv hsv).2 j (List.mem_cons_of_mem i hj)⟩)
    | some base =>
      by_cases hbr : breaks.getD i false
      · cases hst : start with
        | some s =>
          subst hst
          simp only [domainsLoop, hs, hbr, if_true] at h
          cases hcd : closeDomain strands helix reverse baseList s i base st with
          | none => rw [hcd] at h; exact Option.noConfusion h
          | some stc =>
            rw [hcd] at h
            obtain ⟨d, hdoms, hdbl, _⟩ := closeDomain_spec hcd
            obtain ⟨L2, hL2doms, hL2from⟩ := ih none stc st2 (i + 1) h hpw2
              (fun j hj => hlt j hj) (fun sv hsv => Option.noConfusion hsv)
            refine ⟨d :: L2, ?_, ?_⟩
            · rw [hL2doms, hdoms, List.append_assoc, List.singleton_append]
            · have hms : m ≤ s := (hstart s rfl).1
              have hsi : s < i := (hstart s rfl).2 i (List.mem_cons_self i rest)
              exact ⟨s, i, hms, Nat.le_of_lt hsi, hdbl, hL2from⟩
        | none =>
          subst hst
          simp only [domainsLoop, hs, hbr, if_true] at h
          exact ih (some i) st st2 m h hpw2 (fun j hj => hm j (List.mem_cons_of_mem i hj))
            (fun sv hsv => by
              cases Option.some.inj hsv
              exact ⟨hm i (List.mem_cons_self i rest), hlt⟩)
      · simp only [domainsLoop, hs, Bool.not_eq_true] at h hbr
        rw [hbr] at h
        simp only [Bool.false_eq_true, if_false] at h
        exact ih start st st2 m h hpw2 (fun j hj => hm j (List.mem_cons_of_mem i hj))
          (fun sv hsv => ⟨(hstart sv hsv).1, fun j hj => (hstart sv hsv).2 j (List.mem_cons_of_mem i hj)⟩)

/-- Spans and slot origin of the domains described by DomsFrom. -/
theorem DomsFrom_spans {baseList : List (Option DnaBase)} {reverse : Bool} :
    ∀ {m : Nat} {L : List Domain}, DomsFrom baseList reverse m L →
      ∀ d, d ∈ L → ∃ sp ep, m ≤ sp ∧ sp ≤ ep ∧
        d.baseList = buildBaseList reverse (sliceBases baseList sp ep) ∧
        ∀ b, b ∈ d.baseList → ∃ k, sp ≤ k ∧ k ≤ ep ∧ baseList.getD k none = some b := by
  intro m L
  induction L generalizing m with
  | nil => intro _ d hd; exact absurd hd (List.not_mem_nil d)
  | cons d0 L ih =>
    intro hdf d hd
    obtain ⟨sp, ep, hmsp, hspep, hbl, hrest⟩ := hdf
    rcases List.mem_cons.mp hd with hdd | hdL
    · subst hdd
      refine ⟨sp, ep, hmsp, hspep, hbl, fun b hb => ?_⟩
      rw [hbl] at hb
      exact mem_sliceBases (mem_buildBaseList.mp hb)
    · obtain ⟨sp2, ep2, hm2, h2, hbl2, hmem2⟩ := ih hrest d hdL
      exact ⟨sp2, ep2, Nat.le_trans (Nat.le_trans hmsp (Nat.le_succ_of_le hspep)) hm2,
        h2, hbl2, hmem2⟩

/-- Under the slot invariant, the domains described by DomsFrom have pairwise
disjoint base lists, and every base sits at or beyond m. -/
theorem DomsFrom_disjoint {baseList : List (Option DnaBase)} {reverse : Bool}
    (hslot : ∀ k b, baseList.getD k none = some b → b.p = k) :
    ∀ {m : Nat} {L : List Domain}, DomsFrom baseList reverse m L →
      L.Pairwise DomDisjoint ∧ ∀ d, d ∈ L → ∀ b, b ∈ d.baseList → m ≤ b.p := by
  intro m L
  induction L generalizing m with
  | nil => intro _; exact ⟨List.Pairwise.nil, fun d hd => absurd hd (List.not_mem_nil d)⟩
  | cons d0 L ih =>
    intro hdf
    obtain ⟨sp, ep, hmsp, hspep, hbl, hrest⟩ := hdf
    obtain ⟨ihpw, ihbound⟩ := ih hrest
    have hd0bound : ∀ b, b ∈ d0.baseList → sp ≤ b.p ∧ b.p ≤ ep := by
      intro b hb
      rw [hbl] at hb
      obtain ⟨k, hsk, hke, hkslot⟩ := mem_sliceBases (mem_buildBaseList.mp hb)
      rw [hslot k b hkslot]
      exact ⟨hsk, hke⟩
    refine ⟨List.Pairwise.cons ?_ ihpw, ?_⟩
    · intro d2 hd2 b hb hb2
      have h1 : b.p ≤ ep := (hd0bound b hb).2
      have h2 : ep + 1 ≤ b.p := ihbound d2 hd2 b hb2
      omega
    · intro d hd b hb
      rcases List.mem_cons.mp hd with hdd | hdL
      · subst hdd
        exact Nat.le_trans hmsp (hd0bound b hb).1
      · exact Nat.le_trans (by omega) (ihbound d hdL b hb)

/-- Setting slot b.p of an array to b preserves the slot invariant, provided b
itself satisfies it. -/
theorem slotProp_set {num : Int} {role : Bool} {arr : List (Option DnaBase)}
    (h : SlotProp num role arr) {b : DnaBase} (hh : b.h = num) (hr : b.isScaf = role) :
    SlotProp num role (arr.set b.p (some b)) := by
  intro k b2 hk
  rw [getD_slot_iff, List.getElem?_set] at hk
  by_cases hpk : b.p = k
  · rw [if_pos hpk] at hk
    by_cases hlen : b.p < arr.length
    · rw [if_pos hlen] at hk
      have hb2 : b2 = b := by
        have := Option.some.inj hk
        exact (Option.some.inj this).symm
      subst hb2
      exact ⟨hpk ▸ rfl, hh, hr⟩
    · rw [if_neg hlen] at hk
      exact Option.noConfusion hk
  · rw [if_neg hpk] at hk
    exact h k b2 (getD_slot_iff.mpr hk)

/-- An all-empty array satisfies the slot invariant. -/
theorem slotProp_replicate (num : Int) (role : Bool) (n : Nat) :
    SlotProp num role (List.replicate n (none : Option DnaBase)) := by
  intro k b2 hk
  rw [getD_slot_iff, List.getElem?_replicate] at hk
  by_cases hkn : k < n
  · rw [if_pos hkn] at hk
    exact Option.noConfusion (Option.some.inj hk)
  · rw [if_neg hkn] at hk
    exact Option.noConfusion hk

/-- The bucketing fold preserves the slot invariants of both arrays. -/
theorem bucket_fold_slotProp (num : Int) :
    ∀ (l : List DnaBase) (acc : List (Option DnaBase) × List (Option DnaBase)),
      SlotProp num false acc.1 → SlotProp num true acc.2 →
      SlotProp num false (l.foldl (bucketStep num) acc).1 ∧
        SlotProp num true (l.foldl (bucketStep num) acc).2 := by
  intro l
  induction l with
  | nil => intro acc h1 h2; exact ⟨h1, h2⟩
  | cons b l ih =>
    intro acc h1 h2
    rw [List.foldl_cons]
    by_cases hbh : b.h == num
    · by_cases hbs : b.isScaf
      · have hstep : bucketStep num acc b = (acc.1, acc.2.set b.p (some b)) := by
          unfold bucketStep
          rw [if_pos hbh, if_pos hbs]
        rw [hstep]
        exact ih _ h1 (slotProp_set h2 (eq_of_beq hbh) hbs)
      · have hstep : bucketStep num acc b = (acc.1.set b.p (some b), acc.2) := by
          unfold bucketStep
          rw [if_pos hbh, if_neg hbs]
        rw [hstep]
        exact ih _ (slotProp_set h1 (eq_of_beq hbh) (Bool.not_eq_true b.isScaf ▸ hbs)) h2
    · have hstep : bucketStep num acc b = acc := by
        unfold bucketStep
        rw [if_neg hbh]
      rw [hstep]
      exact ih _ h1 h2

/-- The arrays _set_helix_bases builds satisfy the slot invariants. -/
theorem setHelixBases_slotProp (bc : List DnaBase) (helix : Helix) :
    SlotProp (setHelixBases bc helix).latticeNum false
        (setHelixBases bc helix).stapleBaseList ∧
      SlotProp (setHelixBases bc helix).latticeNum true
        (setHelixBases bc helix).scaffoldBaseList := by
  have h := bucket_fold_slotProp helix.latticeNum bc
    (List.replicate helix.numAxisNodes none, List.replicate helix.numAxisNodes none)
    (slotProp_replicate _ _ _) (slotProp_replicate _ _ _)
  exact h

/-- Transport a RoleDomain fact along preserved helix fields. -/
theorem RoleDomain_congr {hx hx2 : Helix}
    (hpol : hx2.scaffoldPolarity = hx.scaffoldPolarity)
    (hsta : hx2.stapleBaseList = hx.stapleBaseList)
    (hsca : hx2.scaffoldBaseList = hx.scaffoldBaseList)
    {r : Bool} {d : Domain} (h : RoleDomain hx r d) : RoleDomain hx2 r d := by
  obtain ⟨sp, ep, h1, h2⟩ := h
  refine ⟨sp, ep, h1, ?_⟩
  have hpol2 : threeToFive hx2 = threeToFive hx := by
    unfold threeToFive
    rw [hpol]
  rw [hpol2, hsta, hsca]
  exact h2

/-- What one helix's pass of _compute_domains produces: field preservation and
a list of appended domains, pairwise disjoint, each assembled by one role's
pass with its bases living on the helix in that role. -/
theorem computeDomainsHelix_spec {bc : List DnaBase} {strands : List DnaStrand}
    {helix helix2 : Helix} {st st2 : DomState}
    (h : computeDomainsHelix bc strands helix st = some (helix2, st2))
    (hsta : SlotProp helix.latticeNum false helix.stapleBaseList)
    (hsca : SlotProp helix.latticeNum true helix.scaffoldBaseList) :
    helix2.latticeNum = helix.latticeNum ∧
    helix2.scaffoldPolarity = helix.scaffoldPolarity ∧
    helix2.stapleBaseList = helix.stapleBaseList ∧
    helix2.scaffoldBaseList = helix.scaffoldBaseList ∧
    ∃ L, st2.domains = st.domains ++ L ∧ L.Pairwise DomDisjoint ∧
      ∀ d, d ∈ L → ∃ r, RoleDomain helix r d ∧
        ∀ b, b ∈ d.baseList → b.h = helix.latticeNum ∧ b.isScaf = r := by
  unfold computeDomainsHelix at h
  cases hb1 : setStrandBreaks bc (List.replicate helix.scaffoldBaseList.length false)
      helix.stapleBaseList with
  | none => simp only [hb1] at h; exact Option.noConfusion h
  | some breaks1 =>
    simp only [hb1] at h
    cases hb2 : setStrandBreaks bc breaks1 helix.scaffoldBaseList with
    | none => simp only [hb2] at h; exact Option.noConfusion h
    | some breaks2 =>
      simp only [hb2] at h
      cases hl1 : domainsLoop strands breaks2 helix.stapleBaseList helix
          (!threeToFive helix) (List.range breaks2.length) none st with
      | none => simp only [hl1] at h; exact Option.noConfusion h
      | some st1 =>
        simp only [hl1] at h
        cases hl2 : domainsLoop strands breaks2 helix.scaffoldBaseList helix
            (threeToFive helix) (List.range breaks2.length) none st1 with
        | none => simp only [hl2] at h; exact Option.noConfusion h
        | some st2x =>
          simp only [hl2] at h
          have hpair := Option.some.inj h
          have hhx : helix2 = { helix with domainList :=
              helix.domainList ++ (st2x.domains.drop st.domains.length).map Domain.id } :=
            (congrArg Prod.fst hpair).symm
          have hst2 : st2 = st2x := (congrArg Prod.snd hpair).symm
          subst hst2
          obtain ⟨L1, hL1doms, hL1from⟩ := domainsLoop_spec strands breaks2
            helix.stapleBaseList helix (!threeToFive helix)
            (List.range breaks2.length) none st st1 0 hl1
            (List.pairwise_lt_range breaks2.length) (fun j _ => Nat.zero_le j)
            (fun sv hsv => Option.noConfusion hsv)
          obtain ⟨L2, hL2doms, hL2from⟩ := domainsLoop_spec strands breaks2
            helix.scaffoldBaseList helix (threeToFive helix)
            (List.range breaks2.length) none st1 st2 0 hl2
            (List.pairwise_lt_range breaks2.length) (fun j _ => Nat.zero_le j)
            (fun sv hsv => Option.noConfusion hsv)
          have hstaple_p : ∀ k b, helix.stapleBaseList.getD k none = some b → b.p = k :=
            fun k b hk => (hsta k b hk).1
          have hscaffold_p : ∀ k b, helix.scaffoldBaseList.getD k none = some b → b.p = k :=
            fun k b hk => (hsca k b hk).1
          have hL1basic : ∀ d, d ∈ L1 → ∀ b, b ∈ d.baseList →
              b.h = helix.latticeNum ∧ b.isScaf = false := by
            intro d hd b hb
            obtain ⟨sp, ep, _, _, _, hmem⟩ := DomsFrom_spans hL1from d hd
            obtain ⟨k, _, _, hk⟩ := hmem b hb
            exact ⟨(hsta k b hk).2.1, (hsta k b hk).2.2⟩
          have hL2basic : ∀ d, d ∈ L2 → ∀ b, b ∈ d.baseList →
              b.h = helix.latticeNum ∧ b.isScaf = true := by
            intro d hd b hb
            obtain ⟨sp, ep, _, _, _, hmem⟩ := DomsFrom_spans hL2from d hd
            obtain ⟨k, _, _, hk⟩ := hmem b hb
            exact ⟨(hsca k b hk).2.1, (hsca k b hk).2.2⟩
          refine ⟨by rw [hhx], by rw [hhx], by rw [hhx], by rw [hhx],
            L1 ++ L2, ?_, ?_, ?_⟩
          · rw [hL2doms, hL1doms, List.append_assoc]
          · rw [List.pairwise_append]
            refine ⟨(DomsFrom_disjoint hstaple_p hL1from).1,
              (DomsFrom_disjoint hscaffold_p hL2from).1, ?_⟩
            intro d1 hd1 d2 hd2 b hb1x hb2x
            have hfalse := (hL1basic d1 hd1 b hb1x).2
            have htrue := (hL2basic d2 hd2 b hb2x).2
            rw [hfalse] at htrue
            exact Bool.noConfusion htrue
          · intro d hd
            rcases List.mem_append.mp hd with hdL1 | hdL2
            · obtain ⟨sp, ep, _, hspep, hbl, _⟩ := DomsFrom_spans hL1from d hdL1
              exact ⟨false, ⟨sp, ep, hspep, hbl⟩, hL1basic d hdL1⟩
            · obtain ⟨sp, ep, _, hspep, hbl, _⟩ := DomsFrom_spans hL2from d hdL2
              exact ⟨true, ⟨sp, ep, hspep, hbl⟩, hL2basic d hdL2⟩

/-- What the helix loop of _compute_domains produces: a list of appended
domains, each assembled by one role pass over one of the output helices with
matching bases; every base lives on one of the input helices; and when the
helices' lattice numbers are distinct, the domains' base lists are pairwise
disjoint. -/
theorem domainsHelicesLoop_spec {bc : List DnaBase} {strands : List DnaStrand} :
    ∀ (helices : List Helix) (st : DomState) (helices2 : List Helix) (st2 : DomState),
      domainsHelicesLoop bc strands helices st = some (helices2, st2) →
      (∀ hx, hx ∈ helices → SlotProp hx.latticeNum false hx.stapleBaseList ∧
        SlotProp hx.latticeNum true hx.scaffoldBaseList) →
      ∃ L, st2.domains = st.domains ++ L ∧
        (∀ d, d ∈ L → ∃ hx2, hx2 ∈ helices2 ∧ ∃ r, RoleDomain hx2 r d ∧
          ∀ b, b ∈ d.baseList → b.h = hx2.latticeNum ∧ b.isScaf = r) ∧
        (∀ d, d ∈ L → ∀ b, b ∈ d.baseList → b.h ∈ helices.map Helix.latticeNum) ∧
        ((helices.map Helix.latticeNum).Nodup → L.Pairwise DomDisjoint) := by
  intro helices
  induction helices with
  | nil =>
    intro st helices2 st2 h _
    have hp := Option.some.inj h
    have h2 : st = st2 := congrArg Prod.snd hp
    subst h2
    refine ⟨[], ?_, ?_, ?_, ?_⟩
    · rw [List.append_nil]
    · intro d hd; exact absurd hd (List.not_mem_nil d)
    · intro d hd; exact absurd hd (List.not_mem_nil d)
    · intro _; exact List.Pairwise.nil
  | cons hx rest ih =>
    intro st helices2 st2 h hslots
    unfold domainsHelicesLoop at h
    cases hch : computeDomainsHelix bc strands hx st with
    | none => simp only [hch] at h; exact Option.noConfusion h
    | some p =>
      obtain ⟨hx2, stm⟩ := p
      simp only [hch] at h
      cases hrest : domainsHelicesLoop bc strands rest stm with
      | none => simp only [hrest] at h; exact Option.noConfusion h
      | some q =>
        obtain ⟨rest2, st3⟩ := q
        simp only [hrest] at h
        have hp := Option.some.inj h
        have hhel : hx2 :: rest2 = helices2 := congrArg Prod.fst hp
        have hst : st3 = st2 := congrArg Prod.snd hp
        subst hhel
        subst hst
        have hxsta := (hslots hx (List.mem_cons_self hx rest)).1
        have hxsca := (hslots hx (List.mem_cons_self hx rest)).2
        obtain ⟨hnum, hpol, hstap, hscaf, Lh, hLhdoms, hLhpw, hLhrole⟩ :=
          computeDomainsHelix_spec hch hxsta hxsca
        obtain ⟨Lr, hLrdoms, hLrrole, hLrnums, hLrpw⟩ := ih stm rest2 st3 hrest
          (fun hx0 hm => hslots hx0 (List.mem_cons_of_mem hx hm))
        clear h hp
        refine ⟨Lh ++ Lr, ?_, ?_, ?_, ?_⟩
        · rw [hLrdoms, hLhdoms, List.append_assoc]
        · intro d hd
          rcases List.mem_append.mp hd with hdh | hdr
          · obtain ⟨r, hrole, hbases⟩ := hLhrole d hdh
            refine ⟨hx2, List.mem_cons_self hx2 rest2, r,
              RoleDomain_congr hpol hstap hscaf hrole, ?_⟩
            intro b hb
            exact ⟨hnum ▸ (hbases b hb).1, (hbases b hb).2⟩
          · obtain ⟨hx3, hm3, hrest3⟩ := hLrrole d hdr
            exact ⟨hx3, List.mem_cons_of_mem hx2 hm3, hrest3⟩
        · intro d hd b hb
          rcases List.mem_append.mp hd with hdh | hdr
          · obtain ⟨r, hrole, hbases⟩ := hLhrole d hdh
            rw [List.map_cons, (hbases b hb).1]
            exact List.mem_cons_self _ _
          · rw [List.map_cons]
            exact List.mem_cons_of_mem _ (hLrnums d hdr b hb)
        · intro hnodup
          rw [List.map_cons] at hnodup
          have hhead : hx.latticeNum ∉ rest.map Helix.latticeNum :=
            (List.nodup_cons.mp hnodup).1
          have htail : (rest.map Helix.latticeNum).Nodup :=
            (List.nodup_cons.mp hnodup).2
          rw [List.pairwise_append]
          refine ⟨hLhpw, hLrpw htail, ?_⟩
          intro d1 hd1 d2 hd2 b hb1 hb2
          obtain ⟨r, hrole, hbases⟩ := hLhrole d1 hd1
          have hbh : b.h = hx.latticeNum := (hbases b hb1).1
          have hbr : b.h ∈ rest.map Helix.latticeNum := hLrnums d2 hd2 b hb2
          rw [hbh] at hbr
          exact hhead hbr

/-- What the connected-strand/domain post-pass does to one domain: the base
list (and identity fields) are unchanged; the connected fields are the sentinel
-1 when no base is paired, and the across-partner's strand id and domain
back-reference otherwise; and resolving an already resolved domain changes
nothing. -/
theorem resolveDomain_spec {bc : List DnaBase} {assign : List (Int × Int)}
    {d d2 : Domain} (h : resolveDomain bc assign d = some d2) :
    d2.baseList = d.baseList ∧ d2.id = d.id ∧ d2.helixNum = d.helixNum ∧
    (d2.baseList.find? (fun b => b.across != -1) = none →
      d2.connectedDomain = -1 ∧ d2.connectedStrand = -1) ∧
    (∀ b, d2.baseList.find? (fun b => b.across != -1) = some b →
      ∃ ab, getBase bc b.across = some ab ∧ d2.connectedStrand = ab.strand ∧
        d2.connectedDomain = lookupDomain assign ab.id) ∧
    resolveDomain bc assign d2 = some d2 := by
  unfold resolveDomain at h
  cases hf : d.baseList.find? (fun b => b.across != -1) with
  | none =>
    simp only [hf] at h
    have hc : ((-1 : Int) == -1) = true := by decide
    rw [if_pos hc] at h
    have h2 := Option.some.inj h
    subst h2
    have hbl : ({ d with connectedStrand := -1, connectedDomain := -1 } : Domain).baseList
        = d.baseList := rfl
    refine ⟨rfl, rfl, rfl, fun _ => ⟨rfl, rfl⟩, ?_, ?_⟩
    · intro b hb
      have hb2 : d.baseList.find? (fun b => b.across != -1) = some b := hb
      rw [hf] at hb2
      exact Option.noConfusion hb2
    · unfold resolveDomain
      simp only [hbl, hf]
      rw [if_pos hc]
  | some b0 =>
    simp only [hf] at h
    have hb0 := List.find?_some hf
    have hne : ¬ (b0.across == -1) = true := by
      simpa using hb0
    rw [if_neg hne] at h
    cases hg : getBase bc b0.across with
    | none => rw [hg] at h; exact Option.noConfusion h
    | some ab =>
      rw [hg] at h
      have h2 := Option.some.inj h
      subst h2
      have hbl :
          ({ d with connectedStrand := ab.strand, connectedDomain := lookupDomain assign ab.id } : Domain).baseList = d.baseList :=
        rfl
      refine ⟨rfl, rfl, rfl, ?_, ?_, ?_⟩
      · intro hfnone
        have hf2 : d.baseList.find? (fun b => b.across != -1) = none := hfnone
        rw [hf] at hf2
        exact Option.noConfusion hf2
      · intro b hb
        have hb2 : d.baseList.find? (fun b => b.across != -1) = some b := hb
        rw [hf] at hb2
        have hbb : b0 = b := Option.some.inj hb2
        subst hbb
        exact ⟨ab, hg, rfl, rfl⟩
      · unfold resolveDomain
        simp only [hbl, hf]
        rw [if_neg hne, hg]

/-- The post-pass resolves the list pointwise. -/
theorem resolveDomains_forall₂ {bc : List DnaBase} {assign : List (Int × Int)} :
    ∀ {ds ds2 : List Domain}, resolveDomains bc assign ds = some ds2 →
      List.Forall₂ (fun d d2 => resolveDomain bc assign d = some d2) ds ds2 := by
  intro ds
  induction ds with
  | nil =>
    intro ds2 h
    have h2 := Option.some.inj h
    rw [← h2]
    exact List.Forall₂.nil
  | cons d ds ih =>
    intro ds2 h
    unfold resolveDomains at h
    cases hr : resolveDomain bc assign d with
    | none => rw [hr] at h; exact Option.noConfusion h
    | some d2 =>
      rw [hr] at h
      cases hrs : resolveDomains bc assign ds with
      | none => rw [hrs] at h; exact Option.noConfusion h
      | some ds3 =>
        rw [hrs] at h
        have h2 := Option.some.inj h
        rw [← h2]
        exact List.Forall₂.cons hr (ih hrs)

/-- A list whose members each resolve to themselves resolves to itself. -/
theorem resolveDomains_fixed {bc : List DnaBase} {assign : List (Int × Int)} :
    ∀ {ds : List Domain}, (∀ d, d ∈ ds → resolveDomain bc assign d = some d) →
      resolveDomains bc assign ds = some ds := by
  intro ds
  induction ds with
  | nil => intro _; rfl
  | cons d ds ih =>
    intro hall
    unfold resolveDomains
    rw [hall d (List.mem_cons_self d ds), ih (fun d2 hd2 => hall d2 (List.mem_cons_of_mem d hd2))]

/-- Every member of a resolved list came from a member of the source list with
the same base list (and identity fields). -/
theorem forall₂_resolve_mem {bc : List DnaBase} {assign : List (Int × Int)}
    {ds ds2 : List Domain}
    (h : List.Forall₂ (fun d d2 => resolveDomain bc assign d = some d2) ds ds2) :
    ∀ d2, d2 ∈ ds2 → ∃ d, d ∈ ds ∧ resolveDomain bc assign d = some d2 := by
  induction h with
  | nil => intro d2 hd2; exact absurd hd2 (List.not_mem_nil d2)
  | cons hab htail ih =>
    intro d2 hd2
    rcases List.mem_cons.mp hd2 with hd2h | hd2t
    · subst hd2h
      exact ⟨_, List.mem_cons_self _ _, hab⟩
    · obtain ⟨d, hd, hr⟩ := ih d2 hd2t
      exact ⟨d, List.mem_cons_of_mem _ hd, hr⟩

/-- The post-pass preserves pairwise disjointness of base lists. -/
theorem forall₂_resolve_pairwise {bc : List DnaBase} {assign : List (Int × Int)}
    {ds ds2 : List Domain}
    (h : List.Forall₂ (fun d d2 => resolveDomain bc assign d = some d2) ds ds2)
    (hpw : ds.Pairwise DomDisjoint) : ds2.Pairwise DomDisjoint := by
  induction h with
  | nil => exact List.Pairwise.nil
  | cons hab htail ih =>
    rename_i a b l1 l2
    have hpw1 := List.pairwise_cons.mp hpw
    refine List.Pairwise.cons ?_ (ih hpw1.2)
    intro b2 hb2 x hxb hxb2
    obtain ⟨a2, ha2, hr2⟩ := forall₂_resolve_mem htail b2 hb2
    have hbl1 : b.baseList = a.baseList := (resolveDomain_spec hab).1
    have hbl2 : b2.baseList = a2.baseList := (resolveDomain_spec hr2).1
    rw [hbl1] at hxb
    rw [hbl2] at hxb2
    exact hpw1.1 a2 ha2 x hxb hxb2

/-- What _compute_domains produces on a structure whose helix arrays satisfy
the slot invariants: every final domain is a role-pass span over one of the
final helices with matching bases; distinct lattice numbers give pairwise
disjoint base lists; the post-pass is idempotent on the final list; and each
final domain carries the connected-strand/domain resolution of its base list. -/
theorem computeDomainsS_spec {s sd : StructState} (h : computeDomainsS s = some sd)
    (hslots : ∀ hx, hx ∈ s.helices → SlotProp hx.latticeNum false hx.stapleBaseList ∧
      SlotProp hx.latticeNum true hx.scaffoldBaseList) :
    (∀ d, d ∈ sd.domainList → ∃ hx, hx ∈ sd.helices ∧ ∃ r, RoleDomain hx r d ∧
      ∀ b, b ∈ d.baseList → b.h = hx.latticeNum ∧ b.isScaf = r) ∧
    ((s.helices.map Helix.latticeNum).Nodup → sd.domainList.Pairwise DomDisjoint) ∧
    resolveDomains sd.baseConnectivity sd.domAssign sd.domainList = some sd.domainList ∧
    (∀ d, d ∈ sd.domainList →
      (d.baseList.find? (fun b => b.across != -1) = none →
        d.connectedDomain = -1 ∧ d.connectedStrand = -1) ∧
      (∀ b, d.baseList.find? (fun b => b.across != -1) = some b →
        ∃ ab, getBase sd.baseConnectivity b.across = some ab ∧
          d.connectedStrand = ab.strand ∧
          d.connectedDomain = lookupDomain sd.domAssign ab.id)) := by
  unfold computeDomainsS at h
  cases hdhl : domainsHelicesLoop s.baseConnectivity s.strands s.helices
      { domains := [], numDomains := 0, domAssign := s.domAssign } with
  | none => simp only [hdhl] at h; exact Option.noConfusion h
  | some q =>
    obtain ⟨helices2, stm⟩ := q
    simp only [hdhl] at h
    cases hres : resolveDomains s.baseConnectivity stm.domAssign stm.domains with
    | none => rw [hres] at h; exact Option.noConfusion h
    | some ds =>
      rw [hres] at h
      have h2 := Option.some.inj h
      subst h2
      obtain ⟨L, hLdoms, hLrole, _, hLpw⟩ :=
        domainsHelicesLoop_spec s.helices _ helices2 stm hdhl hslots
      have hLeq : stm.domains = L := by
        rw [hLdoms]
        rfl
      have hf2 := resolveDomains_forall₂ hres
      rw [hLeq] at hf2
      refine ⟨?_, ?_, ?_, ?_⟩
      · intro d hd
        obtain ⟨d0, hd0, hr0⟩ := forall₂_resolve_mem hf2 d hd
        obtain ⟨hx, hmem, r, hrole, hbases⟩ := hLrole d0 hd0
        have hbl : d.baseList = d0.baseList := (resolveDomain_spec hr0).1
        obtain ⟨sp, ep, hle, hblx⟩ := hrole
        refine ⟨hx, hmem, r, ⟨sp, ep, hle, by rw [hbl]; exact hblx⟩, ?_⟩
        intro b hb
        rw [hbl] at hb
        exact hbases b hb
      · intro hnodup
        exact forall₂_resolve_pairwise hf2 (hLpw hnodup)
      · refine resolveDomains_fixed ?_
        intro d hd
        obtain ⟨d0, _, hr0⟩ := forall₂_resolve_mem hf2 d hd
        exact (resolveDomain_spec hr0).2.2.2.2.2
      · intro d hd
        obtain ⟨d0, _, hr0⟩ := forall₂_resolve_mem hf2 d hd
        exact ⟨(resolveDomain_spec hr0).2.2.2.1, (resolveDomain_spec hr0).2.2.2.2.1⟩

/-- Lattice numbers survive bucketing. -/
theorem map_latticeNum_setHelixBases (bc : List DnaBase) (helices : List Helix) :
    (helices.map (setHelixBases bc)).map Helix.latticeNum = helices.map Helix.latticeNum := by
  rw [List.map_map]
  rfl

/-- The consequences of a successful compute_aux_data run used by the domain
claims, lifted through the connectivity/crossover stage. -/
theorem computeAuxData_spec {s s2 : StructState} (h : computeAuxData s = some s2) :
    (∀ d, d ∈ s2.domainList → ∃ hx, hx ∈ s2.helices ∧ ∃ r, RoleDomain hx r d ∧
      ∀ b, b ∈ d.baseList → b.h = hx.latticeNum ∧ b.isScaf = r) ∧
    ((s.helices.map Helix.latticeNum).Nodup → s2.domainList.Pairwise DomDisjoint) ∧
    resolveDomains s2.baseConnectivity s2.domAssign s2.domainList = some s2.domainList ∧
    (∀ d, d ∈ s2.domainList →
      (d.baseList.find? (fun b => b.across != -1) = none →
        d.connectedDomain = -1 ∧ d.connectedStrand = -1) ∧
      (∀ b, d.baseList.find? (fun b => b.across != -1) = some b →
        ∃ ab, getBase s2.baseConnectivity b.across = some ab ∧
          d.connectedStrand = ab.strand ∧
          d.connectedDomain = lookupDomain s2.domAssign ab.id)) := by
  unfold computeAuxData at h
  cases hcd : computeDomainsS
      { s with helices := s.helices.map (setHelixBases s.baseConnectivity) } with
  | none => simp only [hcd] at h; exact Option.noConfusion h
  | some sd =>
    simp only [hcd] at h
    have h2 := Option.some.inj h
    subst h2
    have hslots : ∀ hx, hx ∈ ({ s with
        helices := s.helices.map (setHelixBases s.baseConnectivity) } : StructState).helices →
        SlotProp hx.latticeNum false hx.stapleBaseList ∧
          SlotProp hx.latticeNum true hx.scaffoldBaseList := by
      intro hx hmem
      obtain ⟨h0, _, hx0⟩ := List.mem_map.mp hmem
      rw [← hx0]
      exact setHelixBases_slotProp s.baseConnectivity h0
    obtain ⟨hrole, hpw, hidem, hchar⟩ := computeDomainsS_spec hcd hslots
    refine ⟨hrole, ?_, hidem, hchar⟩
    intro hnodup
    refine hpw ?_
    have hmaps := map_latticeNum_setHelixBases s.baseConnectivity s.helices
    exact hmaps.symm ▸ hnodup

/-- Claim C1, amended: after compute_aux_data() succeeds on a validated
structure (helix lattice numbers pairwise distinct), every base belongs to at
most one domain — no base appears in the base lists of two distinct domains.
Full coverage does not hold in general: a base may be left with its domain
back-reference unset when its role's break positions do not pair up (see the
counterexample). -/
theorem coverage_c1 (s s2 : StructState)
    (hnodup : (s.helices.map Helix.latticeNum).Nodup)
    (h : computeAuxData s = some s2) :
    s2.domainList.Pairwise DomDisjoint :=
  (computeAuxData_spec h).2.1 hnodup

/-- Witness for C1: the boundary-correctness structure instantiates the
pairwise-disjointness theorem. -/
theorem coverage_c1_witness :
    (((computeAuxData c2S).get (by decide)).domainList).Pairwise DomDisjoint :=
  coverage_c1 c2S ((computeAuxData c2S).get (by decide)) (by decide)
    (Option.some_get (by decide)).symm

/-- Claim C8: every domain created by domain computation lists a contiguous
span of one role's base array of its helix, inserted in reversed storage order
exactly when the reverse flag holds, where reverse = three_to_five (scaffold
polarity is the 3-prime literal) for scaffold passes and its negation for
staple passes; every base in the domain has the pass's role. -/
theorem base_ordering_c8 (s s2 : StructState) (h : computeAuxData s = some s2) :
    ∀ d, d ∈ s2.domainList → ∃ hx, hx ∈ s2.helices ∧ ∃ (scafPass : Bool) (sp ep : Nat),
      sp ≤ ep ∧
      d.baseList =
        (if (if scafPass then threeToFive hx else !threeToFive hx) then
          (sliceBases (if scafPass then hx.scaffoldBaseList else hx.stapleBaseList) sp ep).reverse
        else
          sliceBases (if scafPass then hx.scaffoldBaseList else hx.stapleBaseList) sp ep) ∧
      ∀ b, b ∈ d.baseList → b.isScaf = scafPass := by
  intro d hd
  obtain ⟨hx, hmem, r, ⟨sp, ep, hle, hbl⟩, hbases⟩ := (computeAuxData_spec h).1 d hd
  refine ⟨hx, hmem, r, sp, ep, hle, ?_, fun b hb => (hbases b hb).2⟩
  rw [hbl, buildBaseList_eq]

/-- Witness for C8: the first domain computed on the boundary-correctness
structure instantiates the span/ordering theorem. -/
theorem base_ordering_c8_witness :
    ∃ hx, hx ∈ ((computeAuxData c2S).get (by decide)).helices ∧
      ∃ (scafPass : Bool) (sp ep : Nat), sp ≤ ep ∧
        (((computeAuxData c2S).get (by decide)).domainList.get
            ⟨0, by decide⟩).baseList =
          (if (if scafPass then threeToFive hx else !threeToFive hx) then
            (sliceBases (if scafPass then hx.scaffoldBaseList else hx.stapleBaseList) sp ep).reverse
          else
            sliceBases (if scafPass then hx.scaffoldBaseList else hx.stapleBaseList) sp ep) ∧
        ∀ b, b ∈ (((computeAuxData c2S).get (by decide)).domainList.get
            ⟨0, by decide⟩).baseList → b.isScaf = scafPass :=
  base_ordering_c8 c2S ((computeAuxData c2S).get (by decide))
    (Option.some_get (by decide)).symm
    (((computeAuxData c2S).get (by decide)).domainList.get ⟨0, by decide⟩)
    (List.get_mem _ 0 (by decide))

/-- Claim C7: after domain computation, a domain with no paired base keeps the
sentinel -1 in connected_domain and connected_strand; a domain whose base list
holds a paired base records the across-partner of the first such base — its
strand id and its domain back-reference; and re-running the pairing resolution
on the final domain list returns it unchanged (idempotence). -/
theorem domain_pairing_c7 (s s2 : StructState) (h : computeAuxData s = some s2) :
    (∀ d, d ∈ s2.domainList →
      (d.baseList.find? (fun b => b.across != -1) = none →
        d.connectedDomain = -1 ∧ d.connectedStrand = -1) ∧
      (∀ b, d.baseList.find? (fun b => b.across != -1) = some b →
        ∃ ab, getBase s2.baseConnectivity b.across = some ab ∧
          d.connectedStrand = ab.strand ∧
          d.connectedDomain = lookupDomain s2.domAssign ab.id)) ∧
    resolveDomains s2.baseConnectivity s2.domAssign s2.domainList = some s2.domainList :=
  ⟨(computeAuxData_spec h).2.2.2, (computeAuxData_spec h).2.2.1⟩

/-- Witness for C7: on the boundary-correctness structure, re-running the
pairing resolution on the computed domain list returns it unchanged. -/
theorem domain_pairing_c7_witness :
    resolveDomains ((computeAuxData c2S).get (by decide)).baseConnectivity
        ((computeAuxData c2S).get (by decide)).domAssign
        ((computeAuxData c2S).get (by decide)).domainList =
      some ((computeAuxData c2S).get (by decide)).domainList :=
  (domain_pairing_c7 c2S ((computeAuxData c2S).get (by decide))
    (Option.some_get (by decide)).symm).2

end Nanodesign
